import Mathlib

/-!
Verification development for the `ultimate-mod-man-rs` mod manager.

The Rust sources are shallowly embedded as pure Lean functions:

* the filesystem is abstracted into explicit fields of a `Store` record
  (journal file, variant directories, serialized `mod_info.toml` records);
* `HashMap`s become association lists with a deterministic `alookup`;
* Rust panics (`assert!`, `expect`, `unwrap_or_else(panic!...)`, indexing)
  become `Option.none` results of the embedded operation;
* fallible operations return `Option`/`Except`.

Definitions are translated from the repository sources
(`core/src/mod_db.rs`, `core/src/mod_manager.rs`, `core/src/in_prog_action.rs`,
`scraper/src/banana_scraper.rs`, `scraper/src/download_artifact_parser.rs`,
`scraper/src/mod_file_classifier.rs`).  Parts of the repository that are
only declared but not implemented in the sources (bodies that call the
unimplemented-code marker) are modelled from the specification; each
such definition carries a doc comment starting with `Modelled from the spec:`.
-/

/-! ## Association lists (embedding of `HashMap`) -/

/-- Deterministic lookup in an association list; the embedding of
`HashMap::get`. -/
def alookup {α β : Type} [DecidableEq α] : List (α × β) → α → Option β
  | [], _ => none
  | (k, v) :: xs, a => if a = k then some v else alookup xs a

/-- Remove every binding of key `a`; the embedding of `HashMap::remove`
(on the value side the removed binding is recovered with `alookup`). -/
def aerase {α β : Type} [DecidableEq α] (l : List (α × β)) (a : α) : List (α × β) :=
  l.filter (fun p => decide (p.1 ≠ a))

/-- Update the value bound to key `a` in place; the embedding of mutating
through a `HashMap::get_mut` borrow. -/
def amap {α β : Type} [DecidableEq α] (l : List (α × β)) (a : α) (f : β → β) :
    List (α × β) :=
  l.map (fun p => if p.1 = a then (p.1, f p.2) else p)

/-- Insert-or-overwrite a binding; the embedding of `HashMap::insert`. -/
def aupsert {α β : Type} [DecidableEq α] (l : List (α × β)) (a : α) (b : β) :
    List (α × β) :=
  (a, b) :: aerase l a

/-! ## Data model

Embeddings of the types of `utils/src/types.rs`, `scraper/src/mod_file_classifier.rs`
and `core/src/mod_db.rs`. -/

/-- `pub type ModId = u64;` from `utils/src/types.rs`. -/
abbrev ModId : Type := Nat

/-- `VariantAndId` from `utils/src/types.rs`: a mod id plus the variant
(download-file) name. -/
structure VariantAndId where
  id : ModId
  variantName : String
deriving DecidableEq, Repr

/-- `ModFileAssetAssociation` from `scraper/src/mod_file_classifier.rs`:
which in-game asset a mod file occupies.  `CharSkinSlotValue` is a character
key plus a `u8` slot index, `StageSlotValue` a `u8` slot index. -/
inductive ModFileAssetAssociation where
  | charSkinSlot (charKey : String) (skinSlotIdx : Nat)
  | stage (slotIdx : Nat)
  | globalAsset
  | noEffect
deriving DecidableEq, Repr

/-- Modelled from the spec: `VariantFileInfo` (the Asset Classifier output
consumed by `mod_db.rs`) is absent from the sources; only its analogue
`ModFileInfo` is declared, with `owned_files: HashMap<ModFileAssetAssociation,
Vec<Utf8PathBuf>>` and an unimplemented constructor.  Per the spec it is "a
mapping from semantic asset association ... to the file paths that implement
it"; the owning mod id accompanies it so that the Conflict Index
(`HashMap<ModFileAssetAssociation, ModId>`) can be populated from it. -/
structure VariantFileInfo where
  modId : ModId
  ownedFiles : List (ModFileAssetAssociation × List String)
deriving DecidableEq, Repr

/-- The association keys claimed by a classifier output (the key set of the
`owned_files` map). -/
def keysOfInfo (fi : VariantFileInfo) : List ModFileAssetAssociation :=
  fi.ownedFiles.map Prod.fst

/-- An entry of `InstalledVariant::overrides` (`VariantOverride`/`Override<T>`
in `core/src/mod_db.rs`): the original slot and the slot it was remapped to. -/
structure OverrideRec where
  old : ModFileAssetAssociation
  new : ModFileAssetAssociation
deriving DecidableEq, Repr

/-- `InstalledVariant` from `core/src/mod_db.rs`. -/
structure InstalledVariant where
  name : String
  fileInfo : VariantFileInfo
  overrides : List OverrideRec
  enabled : Bool
deriving DecidableEq, Repr

/-- `InstalledVariant::new`: `enabled` starts `false`, no overrides. -/
def InstalledVariant.mk_new (name : String) (fileInfo : VariantFileInfo) :
    InstalledVariant :=
  { name := name, fileInfo := fileInfo, overrides := [], enabled := false }

/-- `InstalledModInfo` from `core/src/mod_db.rs`; `installed_variants` is a
`HashMap<String, InstalledVariant>` keyed by variant name. -/
structure InstalledModInfo where
  id : ModId
  name : String
  installedVariants : List (String × InstalledVariant)
  version : Option String
deriving DecidableEq, Repr

/-- `InstalledModInfo::new`. -/
def InstalledModInfo.mk_new (id : ModId) (name : String) (version : Option String) :
    InstalledModInfo :=
  { id := id, name := name, installedVariants := [], version := version }

/-- `ScrapedBananaModData` from `scraper/src/banana_scraper.rs`; artifact
bytes are modelled as a list of byte values. -/
structure ScrapedBananaModData where
  modName : String
  variantName : String
  version : Option String
  variantDownloadArtifact : List Nat
deriving DecidableEq, Repr

/-- `Action` from `core/src/in_prog_action.rs`.  The enum in that file shows
only `Add`, but `core/src/mod_manager.rs` constructs and matches
`Action::Remove(key)` as well (`delete_variants`,
`handle_incomplete_in_prog_action`), so the compiled crate's enum has both
constructors.  (Named `DbAction` here: plain `Action` collides with an
existing Mathlib name.) -/
inductive DbAction where
  | add (key : VariantAndId)
  | remove (key : VariantAndId)
deriving DecidableEq, Repr

/-- `ConflictingModVariant` from `core/src/mod_db.rs` names the colliding mod
and the slots it collides on.  Modelled from the spec: the source struct
identifies the mod by a `VariantAndId`, but the Conflict Index
(`HashMap<ModFileAssetAssociation, ModId>`) only stores `ModId`s and the
code that would map an id back to a variant key is unimplemented, so the
colliding mod is identified here by its `ModId` ("all colliding mods + the
slots each collides on"). -/
structure ConflictingModVariant where
  modId : ModId
  slots : List ModFileAssetAssociation
deriving DecidableEq, Repr

/-- `VariantConflictInfo` from `core/src/mod_db.rs` (the `key` field of the
source struct — the key of the variant being enabled — is supplied by the
caller and omitted here). -/
structure VariantConflictInfo where
  conflicts : List ConflictingModVariant
deriving DecidableEq, Repr

/-- `UnableToEnableReason` from `core/src/mod_db.rs`. -/
inductive UnableToEnableReason where
  | conflicts (info : VariantConflictInfo)
  | alreadyEnabled
deriving DecidableEq, Repr

/-- The whole observable state: the in-memory `ModDb` (entity map +
Conflict Index) together with the abstracted on-disk state of the store
directory (journal file, per-variant directories, serialized
`mod_info.toml` records, raw artifact files). -/
structure Store where
  entries : List (ModId × InstalledModInfo)
  assoc : List (ModFileAssetAssociation × ModId)
  journal : Option DbAction
  diskVariantDirs : List VariantAndId
  diskModInfos : List (ModId × InstalledModInfo)
  diskArtifacts : List VariantAndId
deriving DecidableEq, Repr

/-- The store of a freshly created (empty) data directory. -/
def emptyStore : Store :=
  { entries := [], assoc := [], journal := none, diskVariantDirs := [],
    diskModInfos := [], diskArtifacts := [] }

/-! ## Conflict Index registration

`EnabledModFileAssociations::new` and
`EnabledModFileAssociations::add_mod_info_to_global_lookup` in
`core/src/mod_db.rs` are declared with unimplemented bodies. -/

/-- The association keys of `fi` that are already occupied in the index,
paired with the occupying mod (the collision set). -/
def collidingSlots (idx : List (ModFileAssetAssociation × ModId)) (fi : VariantFileInfo) :
    List (ModFileAssetAssociation × ModId) :=
  fi.ownedFiles.filterMap (fun p => (alookup idx p.1).map (fun m => (p.1, m)))

/-- The index entries contributed by registering `fi`. -/
def registrationEntries (fi : VariantFileInfo) : List (ModFileAssetAssociation × ModId) :=
  fi.ownedFiles.map (fun p => (p.1, fi.modId))

/-- Group the collision set by colliding mod, listing each mod once with all
slots it collides on. -/
def groupConflicts (cs : List (ModFileAssetAssociation × ModId)) :
    List ConflictingModVariant :=
  (cs.map Prod.snd).dedup.map
    (fun m => { modId := m, slots := (cs.filter (fun p => decide (p.2 = m))).map Prod.fst })

/-- Modelled from the spec:
`EnabledModFileAssociations::add_mod_info_to_global_lookup` (unimplemented in
`core/src/mod_db.rs`).  Per the spec, the index is "a mapping from
AssetAssociation to the ModId currently occupying it" with the invariant
"at most one ModId occupies a given AssetAssociation at any time"; on
collision it returns the full conflict info ("all colliding mods + the slots
each collides on") and, per the source doc comment, the variant "will not be
added to this"; only a collision-free registration inserts the variant's
associations. -/
def addModInfoToGlobalLookup (idx : List (ModFileAssetAssociation × ModId))
    (fi : VariantFileInfo) :
    Option VariantConflictInfo × List (ModFileAssetAssociation × ModId) :=
  match collidingSlots idx fi with
  | [] => (none, registrationEntries fi ++ idx)
  | cs => (some { conflicts := groupConflicts cs }, idx)

/-! ## Store operations (`core/src/mod_db.rs`, `core/src/mod_manager.rs`) -/

/-- `ModDbDirectory::get_variant_mut_expected` /
`ModDb::get_variant`-style lookup: mod record by id, then variant record by
name.  `none` models the `panic!`s of `get_mod_mut_expected` and
`get_variant_mut_expected` when the record is absent. -/
def lookupVarE (entries : List (ModId × InstalledModInfo)) (key : VariantAndId) :
    Option InstalledVariant :=
  (alookup entries key.id).bind (fun mi => alookup mi.installedVariants key.variantName)

/-- Apply `f` to the variant record stored at `key` (the embedding of
mutating through `get_variant_mut_expected`). -/
def setVariant (entries : List (ModId × InstalledModInfo)) (key : VariantAndId)
    (f : InstalledVariant → InstalledVariant) : List (ModId × InstalledModInfo) :=
  amap entries key.id
    (fun mi => { mi with installedVariants := amap mi.installedVariants key.variantName f })

/-- `ModDb::journal_action_as_in_prog`: `assert!(!fs::exists(path))` — a
second in-flight action is a panic (`none`), taken before anything is
written, so an existing record is never overwritten; otherwise the action is
serialized to the fixed journal path. -/
def journalActionAsInProg (s : Store) (action : DbAction) : Option Store :=
  match s.journal with
  | some _ => none
  | none => some { s with journal := some action }

/-- `ModDb::get_in_prog_action_if_any`. -/
def getInProgActionIfAny (s : Store) : Option DbAction :=
  s.journal

/-- `ModDb::remove_in_prog_action`: `fs::remove_file` fails (io error,
modelled `none`) when no record is present. -/
def removeInProgAction (s : Store) : Option Store :=
  match s.journal with
  | some _ => some { s with journal := none }
  | none => none

/-- `ModDb::remove_variant`: `get_mod_mut_expected` panics (`none`) when the
mod record is absent; a missing variant record is only warned about; the
on-disk variant directory is deleted if it exists.  The Conflict Index is
not touched. -/
def removeVariant (s : Store) (key : VariantAndId) :
    Option (Store × Option InstalledVariant) :=
  match alookup s.entries key.id with
  | none => none
  | some modInfo =>
    let varInfo := alookup modInfo.installedVariants key.variantName
    let entries1 := amap s.entries key.id
      (fun mi => { mi with installedVariants := aerase mi.installedVariants key.variantName })
    let dirs1 := s.diskVariantDirs.filter (fun d => decide (d ≠ key))
    some ({ s with entries := entries1, diskVariantDirs := dirs1 }, varInfo)

/-- `ModDb::add_variant` (with `InstalledModInfo::add_variant`):
`get_path_to_mod` runs `get_mod_name_expected`, which panics (`none`) when
the mod id has no record in the entity map; then the raw artifact is
written, the mod-info record is read from disk (or freshly created), the
variant subdirectory is created (`fs::create_dir` errors if it already
exists, also `none`), the archive is expanded and classified (`classified`
stands for the Asset Classifier output), and the new `InstalledVariant` is
inserted into the *local* `mod_info` value — which is then dropped: neither
the in-memory entity map nor the on-disk record is updated. -/
def addVariant (s : Store) (key : VariantAndId) (payload : ScrapedBananaModData)
    (classified : VariantFileInfo) : Option Store :=
  match alookup s.entries key.id with
  | none => none
  | some _ =>
    let s1 := { s with diskArtifacts := key :: s.diskArtifacts }
    let modInfo :=
      match alookup s1.diskModInfos key.id with
      | none => InstalledModInfo.mk_new key.id payload.modName payload.version
      | some mi => mi
    if s1.diskVariantDirs.contains key then none
    else
      let newVar := InstalledVariant.mk_new key.variantName classified
      let _localRecord :=
        { modInfo with installedVariants := aupsert modInfo.installedVariants key.variantName newVar }
      some { s1 with diskVariantDirs := key :: s1.diskVariantDirs }

/-- `ModDb::enable_variant`: panic (`none`) when the variant record is
absent; `AlreadyEnabled` (as data) when on; on collision the full conflict
info is returned with nothing mutated; only on collision-free registration
is `enabled` flipped and the association registered. -/
def enableVariant (s : Store) (key : VariantAndId) :
    Option (Store × Option UnableToEnableReason) :=
  match lookupVarE s.entries key with
  | none => none
  | some varInfo =>
    if varInfo.enabled then some (s, some .alreadyEnabled)
    else
      match addModInfoToGlobalLookup s.assoc varInfo.fileInfo with
      | (some info, _) => some (s, some (.conflicts info))
      | (none, idx1) =>
        some ({ s with
                  entries := setVariant s.entries key (fun v => { v with enabled := true }),
                  assoc := idx1 },
              none)

/-- `ModDb::disable_variant`: panic (`none`) when the variant record is
absent; otherwise `enabled` is set to `false`.  (The source's
`debug_assert!(!var_info.enabled, ...)` is compiled out in release builds
and not modelled.)  The index is deliberately not touched ("unregistration
happens as a side effect of the next full index rebuild"). -/
def disableVariant (s : Store) (key : VariantAndId) : Option Store :=
  match lookupVarE s.entries key with
  | none => none
  | some _ =>
    some { s with entries := setVariant s.entries key (fun v => { v with enabled := false }) }

/-! ## Load (`ModDb::load_from_path`) -/

/-- The per-variant body of the load loop in `ModDb::load_from_path`
(lines 166–181): every loaded variant's file associations are folded into
the fresh Conflict Index (a collision only produces a warning), and then —
unconditionally, conflict or not — `var_info.enabled` is set to `false`. -/
def loadVariantStep (idx : List (ModFileAssetAssociation × ModId))
    (varInfo : InstalledVariant) :
    List (ModFileAssetAssociation × ModId) × InstalledVariant :=
  let idx1 := (addModInfoToGlobalLookup idx varInfo.fileInfo).2
  (idx1, { varInfo with enabled := false })

/-- Fold `loadVariantStep` over one mod's variant map. -/
def loadModStep (idx : List (ModFileAssetAssociation × ModId))
    (modInfo : InstalledModInfo) :
    List (ModFileAssetAssociation × ModId) × InstalledModInfo :=
  let folded := modInfo.installedVariants.foldl
    (fun (acc : List (ModFileAssetAssociation × ModId) × List (String × InstalledVariant)) p =>
      let r := loadVariantStep acc.1 p.2
      (r.1, acc.2 ++ [(p.1, r.2)]))
    (idx, [])
  (folded.1, { modInfo with installedVariants := folded.2 })

/-- `ModDb::load_from_path`, after directory enumeration: `diskMods` is the
list of mod records that `InstalledModInfo::read_installed_mod_contents_dir`
successfully read (records with a missing `mod_info.toml` or a missing
variant directory have already been skipped with a warning).  Every record
is processed by the load loop and inserted into the entity map; the
Conflict Index starts fresh. -/
def loadFromDisk (diskMods : List InstalledModInfo) (journal : Option DbAction)
    (dirs : List VariantAndId) : Store :=
  let folded := diskMods.foldl
    (fun (acc : List (ModFileAssetAssociation × ModId) × List (ModId × InstalledModInfo)) mi =>
      let r := loadModStep acc.1 mi
      (r.1, aupsert acc.2 mi.id r.2))
    ([], [])
  { entries := folded.2, assoc := folded.1, journal := journal,
    diskVariantDirs := dirs,
    diskModInfos := diskMods.map (fun mi => (mi.id, mi)),
    diskArtifacts := [] }

/-! ## Journal recovery (`core/src/mod_manager.rs`) -/

/-- `ModManager::handle_incomplete_in_prog_action`: both `Add` and `Remove`
run `remove_variant` on the named key, then `remove_in_prog_action`. -/
def handleIncompleteInProgAction (s : Store) (action : DbAction) : Option Store :=
  match action with
  | .add key => (removeVariant s key).bind (fun r => removeInProgAction r.1)
  | .remove key => (removeVariant s key).bind (fun r => removeInProgAction r.1)

/-- `ModManager::cleanup_any_incomplete_in_prog_action`: a no-op when no
journal record is present. -/
def cleanupAnyIncompleteInProgAction (s : Store) : Option Store :=
  match getInProgActionIfAny s with
  | none => some s
  | some action => handleIncompleteInProgAction s action

/-! ## Resolver transaction (`ModDbConflictResolver`)

`ModDb::resolve_conflict`, `ModDbConflictResolver::resolve_conflict` and
`ModDbConflictResolver::commit` are declared in `core/src/mod_db.rs` with
unimplemented bodies; the whole transaction is modelled from the spec
(section 4.2). -/

/-- One buffered resolution for a contested slot: keep the existing
occupant, replace (evict) it, or — for swappable slots — relocate the
existing occupant to a chosen free slot. -/
inductive ResolutionChoice where
  | keepExisting
  | replace
  | swapTo (target : ModFileAssetAssociation)
deriving DecidableEq, Repr

/-- A buffered `pending_changes` entry: the contested slot, the variant of
the existing occupant it is resolved against, and the chosen resolution. -/
structure ResolutionDecision where
  slot : ModFileAssetAssociation
  owner : VariantAndId
  choice : ResolutionChoice
deriving DecidableEq, Repr

/-- The file paths a variant's association map assigns to slot `k`. -/
def filesAt (v : InstalledVariant) (k : ModFileAssetAssociation) : List String :=
  (alookup v.fileInfo.ownedFiles k).getD []

/-- Modelled from the spec: applying one buffered resolution at commit time
("index reassignment, override recording on the affected variants").
A decision is applied only when it is consistent with the store (the named
occupant is an enabled variant actually claiming the slot, and a swap
target is currently free — the resolver only offers "currently-free slot
indices"); an inconsistent decision is a no-op.
`keepExisting` changes nothing; `replace` evicts the occupant from the slot
(index entry removed, slot dropped from the occupant's association map);
`swapTo t` relocates the occupant's claim from the slot to `t` and records
the override.  `replaceStep` evicts `owner` from `slot`: the index entry is
removed and the slot is dropped from the occupant's association map. -/
def replaceStep (s : Store) (owner : VariantAndId) (slot : ModFileAssetAssociation) : Store :=
  { s with
      assoc := aerase s.assoc slot,
      entries := setVariant s.entries owner (fun v =>
        { v with fileInfo := { v.fileInfo with ownedFiles := aerase v.fileInfo.ownedFiles slot } }) }

/-- Modelled from the spec: relocation of the existing occupant `owner` of
`slot` to the free slot `t` ("move the existing occupant to a chosen free
slot"), with the override recorded on the occupant's variant. -/
def swapStep (s : Store) (owner : VariantAndId) (slot t : ModFileAssetAssociation)
    (ownerModId : ModId) : Store :=
  { s with
      assoc := (t, ownerModId) :: aerase s.assoc slot,
      entries := setVariant s.entries owner (fun v =>
        { v with
            fileInfo := { v.fileInfo with ownedFiles := (t, filesAt v slot) :: aerase v.fileInfo.ownedFiles slot },
            overrides := v.overrides ++ [{ old := slot, new := t }] }) }

/-- Modelled from the spec: dispatch of one buffered decision (see
`replaceStep`/`swapStep`); an inconsistent decision is a no-op. -/
def applyDecision (s : Store) (d : ResolutionDecision) : Store :=
  match lookupVarE s.entries d.owner, d.choice with
  | none, _ => s
  | some _, .keepExisting => s
  | some ov, .replace =>
    if ov.enabled = true ∧ d.slot ∈ keysOfInfo ov.fileInfo then replaceStep s d.owner d.slot
    else s
  | some ov, .swapTo t =>
    if (ov.enabled = true ∧ d.slot ∈ keysOfInfo ov.fileInfo) ∧ alookup s.assoc t = none then
      swapStep s d.owner d.slot t ov.fileInfo.modId
    else s

/-- Modelled from the spec: `ModDbConflictResolver::commit` — "atomically
applies every buffered change — index reassignment, override recording on
the affected variants, and enabling the new variant only if every one of
its associations ended up uncontested".  The final step reuses the same
registration path as `enable_variant`: if any association of the new
variant is still contested, it stays disabled and nothing further is
mutated. -/
def resolverCommit (s : Store) (newKey : VariantAndId)
    (decisions : List ResolutionDecision) : Store :=
  match enableVariant (decisions.foldl applyDecision s) newKey with
  | some (s2, _) => s2
  | none => decisions.foldl applyDecision s

/-! ## Operation sequences over the store -/

/-- One mutating store operation of the kind quantified over by the
conflict-exclusivity property. -/
inductive StoreOp where
  | add (key : VariantAndId) (payload : ScrapedBananaModData) (classified : VariantFileInfo)
  | enable (key : VariantAndId)
  | disable (key : VariantAndId)
  | resolveCommit (newKey : VariantAndId) (decisions : List ResolutionDecision)
deriving Repr

/-- Apply one operation; `none` models a panic or io error aborting the
process. -/
def applyOp (op : StoreOp) (s : Store) : Option Store :=
  match op with
  | .add key payload classified => addVariant s key payload classified
  | .enable key => (enableVariant s key).map Prod.fst
  | .disable key => disableVariant s key
  | .resolveCommit newKey decisions => some (resolverCommit s newKey decisions)

/-- Run a sequence of operations, stopping at the first panic/error. -/
def runOps (ops : List StoreOp) (s : Store) : Option Store :=
  match ops with
  | [] => some s
  | op :: rest => (applyOp op s).bind (runOps rest)

/-! ## Invariants -/

/-- The variant stored under mod `m`, name `vn` is `v`, and it is enabled. -/
def EnabledAtE (entries : List (ModId × InstalledModInfo)) (m : ModId) (vn : String)
    (v : InstalledVariant) : Prop :=
  ∃ mi, alookup entries m = some mi ∧
    alookup mi.installedVariants vn = some v ∧ v.enabled = true

/-- Every enabled variant's association keys are registered in the Conflict
Index. -/
def EnabledRegistered (s : Store) : Prop :=
  ∀ m vn v, EnabledAtE s.entries m vn v →
    ∀ k, k ∈ keysOfInfo v.fileInfo → (alookup s.assoc k).isSome

/-- The conflict-exclusivity property: the file-association maps of any two
distinct enabled variants share no association key. -/
def DisjointEnabledE (entries : List (ModId × InstalledModInfo)) : Prop :=
  ∀ m1 vn1 v1 m2 vn2 v2,
    EnabledAtE entries m1 vn1 v1 → EnabledAtE entries m2 vn2 v2 →
    ¬(m1 = m2 ∧ vn1 = vn2) →
    ∀ k, k ∈ keysOfInfo v1.fileInfo → k ∉ keysOfInfo v2.fileInfo

/-- The store invariant maintained by every mutating operation. -/
def StoreInv (s : Store) : Prop :=
  EnabledRegistered s ∧ DisjointEnabledE s.entries

/-! ## Archive Ingestor (`scraper/src/download_artifact_parser.rs`) -/

/-- `CompressionType`. -/
inductive CompressionType where
  | zip
  | rar
  | sevenZip
  | tar
deriving DecidableEq, Repr

/-- `CompressionTypeFromExtStrErr`: carries the unrecognized extension. -/
structure CompressionTypeFromExtStrErr where
  ext : String
deriving DecidableEq, Repr

/-- `str::to_lowercase`, embedded over the string's character list so that
it evaluates (the ASCII case conversion is all the archive extensions
need). -/
def asciiToLower (s : String) : String := String.mk (s.data.map Char.toLower)

/-- `CompressionType::from_str` (`"tar" | "xz"` both map to `Tar`; the error
carries the original string). -/
def CompressionType.fromStr (s : String) : Except CompressionTypeFromExtStrErr CompressionType :=
  if asciiToLower s = "zip" then .ok .zip
  else if asciiToLower s = "rar" then .ok .rar
  else if asciiToLower s = "7z" then .ok .sevenZip
  else if asciiToLower s = "tar" ∨ asciiToLower s = "xz" then .ok .tar
  else .error { ext := s }

instance {e a : Type} [DecidableEq e] [DecidableEq a] : DecidableEq (Except e a) := fun
  | .error x, .error y =>
    if h : x = y then isTrue (by rw [h]) else isFalse (by intro hc; cases hc; exact h rfl)
  | .error _, .ok _ => isFalse (by intro hc; cases hc)
  | .ok _, .error _ => isFalse (by intro hc; cases hc)
  | .ok x, .ok y =>
    if h : x = y then isTrue (by rw [h]) else isFalse (by intro hc; cases hc; exact h rfl)

/-- The archive-format constructors of `VariantParseError`. -/
inductive VariantParseError where
  | noMagicNumberInArchive (variantFileName : String)
  | variantPayloadNotARecognizableArchive (variantFileName : String)
      (src : CompressionTypeFromExtStrErr)
deriving DecidableEq, Repr

/-- `MAGIC_NUMBER_BYTE_READ_AMOUNT`: the fixed header size read for format
detection. -/
def MAGIC_NUMBER_BYTE_READ_AMOUNT : Nat := 100

/-- Split a string at the dots (an evaluable embedding of
`str::split('.')` over the character list). -/
def splitOnDotAux (c : Char) (acc : List (List Char)) : List (List Char) :=
  if c = '.' then [] :: acc
  else
    match acc with
    | [] => [[c]]
    | g :: gs => (c :: g) :: gs

def splitOnDot (s : String) : List String :=
  (s.data.foldr splitOnDotAux [[]]).map String.mk

/-- The visible extension of a file name (`Utf8PathBuf::extension`),
approximated as the part after the last dot; used only for the cosmetic
mismatch warning. -/
def fileNameExtension (name : String) : Option String :=
  match splitOnDot name with
  | [] => none
  | [_] => none
  | parts => parts.getLast?

/-- `ModPayloadParseInfo::determine_archive_format`, parametrized by the
`infer` crate's magic-number detector `inferGet` (mapping a byte prefix to
the canonical extension of the detected type, `none` when no known binary
signature matches).  Returns the result together with the
mismatched-extension warning flag: the format is always determined by the
magic number; a recognizable file-name extension that differs from the
detected one only sets the flag (the source logs a warning and continues). -/
def determineArchiveFormat (inferGet : List Nat → Option String)
    (variantFileName : String) (compressedBytes : List Nat) :
    Except VariantParseError CompressionType × Bool :=
  match inferGet compressedBytes with
  | none => (.error (.noMagicNumberInArchive variantFileName), false)
  | some archiveTypeStr =>
    match CompressionType.fromStr archiveTypeStr with
    | .error e => (.error (.variantPayloadNotARecognizableArchive variantFileName e), false)
    | .ok magicNumberCompressionType =>
      let warned :=
        match fileNameExtension variantFileName with
        | none => false
        | some ext =>
          match CompressionType.fromStr ext with
          | .ok cTypeFromFName => decide (cTypeFromFName ≠ magicNumberCompressionType)
          | .error _ => false
      (.ok magicNumberCompressionType, warned)

/-- `ModPayloadParseInfo::open_archive`: only the first
`MAGIC_NUMBER_BYTE_READ_AMOUNT` bytes of the file are read as the header
that format detection sees. -/
def openArchiveFormat (inferGet : List Nat → Option String)
    (variantFileName : String) (fileBytes : List Nat) :
    Except VariantParseError CompressionType :=
  (determineArchiveFormat inferGet variantFileName
    (fileBytes.take MAGIC_NUMBER_BYTE_READ_AMOUNT)).1

/-! ## Downloader (`scraper/src/banana_scraper.rs`) -/

/-- `ModDownloadEntries` (one entry of the mod page's `_aFiles`). -/
structure ModDownloadEntries where
  sFile : String
  tsDateAdded : Nat
  sDownloadUrl : String
  sMd5Checksum : String
deriving DecidableEq, Repr

/-- The fields of the `ModPageResp` mod-page response used by the
downloader. -/
structure ModPageResp where
  sName : String
  sVersion : String
  aFiles : List ModDownloadEntries
deriving DecidableEq, Repr

/-- `FuzzySearchMatchRes` from `scraper/src/utils.rs` (`noneRes` embeds the
source's `None` constructor).  The `f32` score of each `FuzzyMatchedStr` is
floating-point and not modelled; `multiple` carries the candidate indices
sorted by score descending. -/
inductive FuzzySearchMatchRes where
  | perfect (idx : Nat)
  | multiple (idxs : List Nat)
  | noneRes
deriving DecidableEq, Repr

/-- The `BananaScraperError` constructors reachable in the embedded part of
`download_mod_variant`. -/
inductive BananaScraperError where
  | modVariantDoesNotFound (variant : String) (modName : String)
  | variantMd5CheckSumMismatch (file : String) (modName : String)
      (expected : String) (ours : String)
deriving DecidableEq, Repr

/-- The tail of `BananaClient::download_mod_variant` from the resolved match
index on: compute `version` from `_sVersion` via
`is_empty().then_some(...)`, index into `_aFiles` (an out-of-range index is
the panic `none`), download the artifact, compare its MD5 digest with the
page's `_sMd5Checksum` and fail with `VariantMd5CheckSumMismatch` on any
difference; only on equality is the payload returned. -/
def downloadSelectedVariant (md5 : List Nat → String) (fetch : String → List Nat)
    (page : ModPageResp) (matchIdx : Nat) :
    Option (Except BananaScraperError ScrapedBananaModData) :=
  match page.aFiles.get? matchIdx with
  | none => none
  | some selectedVariant =>
    if md5 (fetch selectedVariant.sDownloadUrl) ≠ selectedVariant.sMd5Checksum then
      some (.error (.variantMd5CheckSumMismatch selectedVariant.sFile page.sName
        selectedVariant.sMd5Checksum (md5 (fetch selectedVariant.sDownloadUrl))))
    else
      some (.ok { modName := page.sName, variantName := selectedVariant.sFile,
                  version := if page.sVersion = "" then some page.sVersion else none,
                  variantDownloadArtifact := fetch selectedVariant.sDownloadUrl })

/-- `BananaClient::download_mod_variant` with the network and hashing
abstracted: `md5` is the digest-to-hex-string function, `fetch` maps a
download url to the fetched bytes, `fuzzy` is
`fuzzy_search_strings_and_return_one_or_many_depending_on_perfect_match`
(abstracted: its scoring is floating-point), and `select` is the
user-input delegate's `select_item_from_list`. -/
def downloadModVariant (md5 : List Nat → String) (fetch : String → List Nat)
    (fuzzy : List String → String → FuzzySearchMatchRes)
    (select : List Nat → Nat) (page : ModPageResp) (key : VariantAndId) :
    Option (Except BananaScraperError ScrapedBananaModData) :=
  match fuzzy (page.aFiles.map (fun f => f.sFile)) key.variantName with
  | .perfect idx => downloadSelectedVariant md5 fetch page idx
  | .multiple sortedMatches => downloadSelectedVariant md5 fetch page (select sortedMatches)
  | .noneRes => some (.error (.modVariantDoesNotFound key.variantName page.sName))

/-! ## Concrete stores used in the closed theorems below -/

/-- Every variant of every mod record in `entries` is disabled. -/
def AllDisabledE (entries : List (ModId × InstalledModInfo)) : Prop :=
  ∀ m mi, alookup entries m = some mi →
    ∀ vn v, alookup mi.installedVariants vn = some v → v.enabled = false

/-- A classifier output for mod 5 claiming the mario skin slot 2. -/
def demoFileInfo5 : VariantFileInfo :=
  { modId := 5, ownedFiles := [(.charSkinSlot "mario" 2, ["fighter/mario/c02"])] }

/-- A disabled installed variant of mod 5. -/
def demoVariantDisabled : InstalledVariant :=
  { name := "v", fileInfo := demoFileInfo5, overrides := [], enabled := false }

/-- Mod 5 with the single disabled variant `"v"` installed. -/
def demoMod5 : InstalledModInfo :=
  { id := 5, name := "m", installedVariants := [("v", demoVariantDisabled)], version := none }

/-- A store holding mod 5 with its disabled variant and an empty Conflict
Index. -/
def demoStore5 : Store :=
  { entries := [(5, demoMod5)], assoc := [], journal := none,
    diskVariantDirs := [{ id := 5, variantName := "v" }],
    diskModInfos := [(5, demoMod5)], diskArtifacts := [] }

/-- A classifier output for mod 42 claiming the mario skin slot 2. -/
def demoFileInfo42 : VariantFileInfo :=
  { modId := 42, ownedFiles := [(.charSkinSlot "mario" 2, ["fighter/mario/c02"])] }

/-- A variant of mod 42 that was serialized as `enabled = true` (the state a
committed enable leaves in `mod_info.toml`). -/
def demoVariantEnabled : InstalledVariant :=
  { name := "red_costume.zip", fileInfo := demoFileInfo42, overrides := [], enabled := true }

/-- The serialized mod-42 record holding the enabled variant; it collides
with nothing (it is the only record on disk). -/
def demoDiskMod42 : InstalledModInfo :=
  { id := 42, name := "CoolSkin",
    installedVariants := [("red_costume.zip", demoVariantEnabled)], version := none }

/-- A download payload used by the `add_variant` theorems. -/
def demoPayload : ScrapedBananaModData :=
  { modName := "CoolSkin", variantName := "red.zip", version := none,
    variantDownloadArtifact := [80, 75] }

/-- A classifier output for mod 7. -/
def demoFileInfo7 : VariantFileInfo :=
  { modId := 7, ownedFiles := [(.charSkinSlot "mario" 2, ["fighter/mario/c02"])] }

/-- A store whose root holds a journaled `Add(41/"w")` while the entity map
has no record for mod 41 — exactly the on-disk state an interrupted
first-time add leaves behind (`add_variant` never inserts the mod record). -/
def demoJournaledAddStore : Store :=
  { entries := [], assoc := [], journal := some (.add { id := 41, variantName := "w" }),
    diskVariantDirs := [{ id := 41, variantName := "w" }],
    diskModInfos := [], diskArtifacts := [] }

/-- Same shape as `demoJournaledAddStore` with a different key, used by the
replay-idempotence analysis. -/
def demoJournaledAddStore9 : Store :=
  { entries := [], assoc := [], journal := some (.add { id := 9, variantName := "z" }),
    diskVariantDirs := [{ id := 9, variantName := "z" }],
    diskModInfos := [], diskArtifacts := [] }

/-- A store holding mod 8 with one variant record and a journaled add for a
second variant of the same mod — the partially-mutated state an interrupted
second-variant add leaves (the mod record exists, the new variant record
does not). -/
def demoVariant8v1 : InstalledVariant :=
  { name := "v1", fileInfo := { modId := 8, ownedFiles := [] },
    overrides := [], enabled := false }

def demoMod8 : InstalledModInfo :=
  { id := 8, name := "m8", installedVariants := [("v1", demoVariant8v1)], version := none }

def demoJournaledStore8 : Store :=
  { entries := [(8, demoMod8)], assoc := [],
    journal := some (.add { id := 8, variantName := "v2" }),
    diskVariantDirs := [{ id := 8, variantName := "v2" }],
    diskModInfos := [(8, demoMod8)], diskArtifacts := [] }

/-! ## Concrete downloader inputs used by the closed theorems below -/

/-- A download entry whose checksum matches what `demoMd5` computes for the
fetched bytes. -/
def demoEntry : ModDownloadEntries :=
  { sFile := "f.zip", tsDateAdded := 0, sDownloadUrl := "url", sMd5Checksum := "good" }

/-- A mod page with an empty version string and one good entry. -/
def demoPage : ModPageResp := { sName := "Mod", sVersion := "", aFiles := [demoEntry] }

/-- A download entry whose recorded checksum differs from the digest of the
fetched bytes. -/
def demoBadEntry : ModDownloadEntries :=
  { sFile := "f.zip", tsDateAdded := 0, sDownloadUrl := "url", sMd5Checksum := "evil" }

/-- A mod page with a non-empty version string and one tampered entry. -/
def demoBadPage : ModPageResp :=
  { sName := "Mod", sVersion := "1.0", aFiles := [demoBadEntry] }

def demoFetch : String → List Nat := fun _ => [1, 2, 3]

def demoMd5 : List Nat → String := fun b => if b = [1, 2, 3] then "good" else "bad"

def demoFuzzy : List String → String → FuzzySearchMatchRes := fun _ _ => .perfect 0

def demoSelect : List Nat → Nat := fun _ => 0

def demoKey : VariantAndId := { id := 1, variantName := "f" }

/-- The payload `downloadModVariant` returns on `demoPage`. -/
def demoOkData : ScrapedBananaModData :=
  { modName := "Mod", variantName := "f.zip", version := some "",
    variantDownloadArtifact := [1, 2, 3] }

/-- The operation sequence of the conflict-exclusivity witness. -/
def c3WitnessOps : List StoreOp := [.enable { id := 5, variantName := "v" }]

/-- The store the witness sequence produces. -/
def c3WitnessResult : Store := (runOps c3WitnessOps demoStore5).getD emptyStore

/-- A magic-number detector recognizing the zip signature. -/
def demoInfer : List Nat → Option String :=
  fun b => if b.take 2 = [80, 75] then some "zip" else none

/-! ## Lemmas -/

theorem alookup_nil {α β : Type} [DecidableEq α] (a : α) :
    alookup ([] : List (α × β)) a = none := rfl

theorem alookup_cons {α β : Type} [DecidableEq α] (k : α) (v : β) (l : List (α × β)) (a : α) :
    alookup ((k, v) :: l) a = if a = k then some v else alookup l a := rfl


theorem alookup_mem {α β : Type} [DecidableEq α] {l : List (α × β)} {a : α} {b : β}
    (h : alookup l a = some b) : (a, b) ∈ l := by
  induction l with
  | nil => simp [alookup] at h
  | cons p xs ih =>
    obtain ⟨k, v⟩ := p
    rw [alookup_cons] at h
    by_cases hk : a = k
    · rw [if_pos hk] at h
      obtain rfl : v = b := Option.some.inj h
      subst hk
      exact List.mem_cons_self _ _
    · rw [if_neg hk] at h
      exact List.mem_cons_of_mem _ (ih h)

theorem alookup_isSome_of_mem_keys {α β : Type} [DecidableEq α] {l : List (α × β)} {a : α}
    (h : a ∈ l.map Prod.fst) : (alookup l a).isSome := by
  induction l with
  | nil => simp at h
  | cons p xs ih =>
    obtain ⟨k, v⟩ := p
    rw [alookup_cons]
    by_cases hk : a = k
    · rw [if_pos hk]
      rfl
    · rw [if_neg hk]
      rw [List.map_cons, List.mem_cons] at h
      rcases h with h | h
      · exact absurd h hk
      · exact ih h

theorem mem_keys_of_alookup_isSome {α β : Type} [DecidableEq α] {l : List (α × β)} {a : α}
    (h : (alookup l a).isSome) : a ∈ l.map Prod.fst := by
  induction l with
  | nil => simp [alookup] at h
  | cons p xs ih =>
    obtain ⟨k, v⟩ := p
    rw [alookup_cons] at h
    rw [List.map_cons, List.mem_cons]
    by_cases hk : a = k
    · exact Or.inl hk
    · rw [if_neg hk] at h
      exact Or.inr (ih h)

theorem alookup_aerase {α β : Type} [DecidableEq α] (l : List (α × β)) (a b : α) :
    alookup (aerase l a) b = if b = a then none else alookup l b := by
  induction l with
  | nil => simp [aerase, alookup]
  | cons p xs ih =>
    obtain ⟨k, v⟩ := p
    by_cases hk : k = a
    · subst hk
      have heq : aerase ((k, v) :: xs) k = aerase xs k := by
        simp [aerase, List.filter_cons]
      rw [heq, ih]
      by_cases hb : b = k
      · simp [hb]
      · simp [alookup_cons, hb]
    · have heq : aerase ((k, v) :: xs) a = (k, v) :: aerase xs a := by
        simp [aerase, List.filter_cons, hk]
      rw [heq, alookup_cons, alookup_cons, ih]
      by_cases hb : b = k
      · subst hb
        simp [hk]
      · simp [hb]

theorem mem_keys_aerase {α β : Type} [DecidableEq α] {l : List (α × β)} {a b : α} :
    b ∈ (aerase l a).map Prod.fst ↔ b ∈ l.map Prod.fst ∧ b ≠ a := by
  induction l with
  | nil => simp [aerase]
  | cons p xs ih =>
    obtain ⟨k, v⟩ := p
    by_cases hk : k = a
    · subst hk
      have heq : aerase ((k, v) :: xs) k = aerase xs k := by
        simp [aerase, List.filter_cons]
      rw [heq, ih, List.map_cons, List.mem_cons]
      constructor
      · rintro ⟨h1, h2⟩
        exact ⟨Or.inr h1, h2⟩
      · rintro ⟨h1 | h1, h2⟩
        · exact absurd h1 h2
        · exact ⟨h1, h2⟩
    · have heq : aerase ((k, v) :: xs) a = (k, v) :: aerase xs a := by
        simp [aerase, List.filter_cons, hk]
      rw [heq, List.map_cons, List.map_cons, List.mem_cons, List.mem_cons, ih]
      constructor
      · rintro (h1 | ⟨h1, h2⟩)
        · refine ⟨Or.inl h1, ?_⟩
          rw [h1]
          exact hk
        · exact ⟨Or.inr h1, h2⟩
      · rintro ⟨h1 | h1, h2⟩
        · exact Or.inl h1
        · exact Or.inr ⟨h1, h2⟩

theorem alookup_amap {α β : Type} [DecidableEq α] (l : List (α × β)) (a : α) (f : β → β)
    (b : α) :
    alookup (amap l a f) b = if b = a then (alookup l b).map f else alookup l b := by
  induction l with
  | nil => simp [amap, alookup]
  | cons p xs ih =>
    obtain ⟨k, v⟩ := p
    by_cases hk : k = a
    · subst hk
      have heq : amap ((k, v) :: xs) k f = (k, f v) :: amap xs k f := by
        simp [amap]
      rw [heq, alookup_cons, alookup_cons, ih]
      by_cases hb : b = k
      · simp [hb]
      · simp [hb]
    · have heq : amap ((k, v) :: xs) a f = (k, v) :: amap xs a f := by
        simp [amap, hk]
      rw [heq, alookup_cons, alookup_cons, ih]
      by_cases hb : b = k
      · subst hb
        simp [hk]
      · simp [hb]

theorem alookup_append_isSome {α β : Type} [DecidableEq α] (l₁ l₂ : List (α × β)) (a : α) :
    (alookup (l₁ ++ l₂) a).isSome ↔ (alookup l₁ a).isSome ∨ (alookup l₂ a).isSome := by
  induction l₁ with
  | nil => simp [alookup]
  | cons p xs ih =>
    obtain ⟨k, v⟩ := p
    rw [List.cons_append, alookup_cons, alookup_cons]
    by_cases hk : a = k
    · simp [hk]
    · simp only [if_neg hk]
      rw [ih]


theorem lookupVarE_eq_some_iff {E : List (ModId × InstalledModInfo)} {key : VariantAndId}
    {v : InstalledVariant} :
    lookupVarE E key = some v ↔
      ∃ mi, alookup E key.id = some mi ∧
        alookup mi.installedVariants key.variantName = some v := by
  simp [lookupVarE, Option.bind_eq_some]

theorem enabledAtE_of_lookupVarE {E : List (ModId × InstalledModInfo)} {key : VariantAndId}
    {v : InstalledVariant} (h : lookupVarE E key = some v) (hen : v.enabled = true) :
    EnabledAtE E key.id key.variantName v := by
  obtain ⟨mi, h1, h2⟩ := lookupVarE_eq_some_iff.mp h
  exact ⟨mi, h1, h2, hen⟩

theorem enabledAtE_setVariant_elim {E : List (ModId × InstalledModInfo)} {key : VariantAndId}
    {f : InstalledVariant → InstalledVariant} {m : ModId} {vn : String} {v : InstalledVariant}
    (h : EnabledAtE (setVariant E key f) m vn v) :
    (m = key.id ∧ vn = key.variantName ∧ v.enabled = true ∧
      ∃ w, lookupVarE E key = some w ∧ v = f w) ∨
    (¬(m = key.id ∧ vn = key.variantName) ∧ EnabledAtE E m vn v) := by
  obtain ⟨mi, h1, h2, h3⟩ := h
  rw [setVariant, alookup_amap] at h1
  by_cases hm : m = key.id
  · rw [if_pos hm] at h1
    obtain ⟨mi0, hmi0, rfl⟩ := Option.map_eq_some'.mp h1
    dsimp at h2
    rw [alookup_amap] at h2
    by_cases hv : vn = key.variantName
    · rw [if_pos hv] at h2
      obtain ⟨w, hw, rfl⟩ := Option.map_eq_some'.mp h2
      refine Or.inl ⟨hm, hv, h3, w, ?_, rfl⟩
      rw [lookupVarE, ← hm, hmi0, Option.some_bind, ← hv]
      exact hw
    · rw [if_neg hv] at h2
      exact Or.inr ⟨fun hc => hv hc.2, ⟨mi0, hmi0, h2, h3⟩⟩
  · rw [if_neg hm] at h1
    exact Or.inr ⟨fun hc => hm hc.1, ⟨mi, h1, h2, h3⟩⟩

theorem enabledAtE_setVariant_other {E : List (ModId × InstalledModInfo)} {key : VariantAndId}
    {f : InstalledVariant → InstalledVariant} {m : ModId} {vn : String} {v : InstalledVariant}
    (hne : ¬(m = key.id ∧ vn = key.variantName)) (h : EnabledAtE E m vn v) :
    EnabledAtE (setVariant E key f) m vn v := by
  obtain ⟨mi, h1, h2, h3⟩ := h
  by_cases hm : m = key.id
  · have hv : ¬vn = key.variantName := fun hc => hne ⟨hm, hc⟩
    refine ⟨{ mi with installedVariants := amap mi.installedVariants key.variantName f },
      ?_, ?_, h3⟩
    · rw [setVariant, alookup_amap, if_pos hm, h1]
      rfl
    · dsimp
      rw [alookup_amap, if_neg hv]
      exact h2
  · refine ⟨mi, ?_, h2, h3⟩
    rw [setVariant, alookup_amap, if_neg hm]
    exact h1

theorem enabledAtE_setVariant_self {E : List (ModId × InstalledModInfo)} {key : VariantAndId}
    {f : InstalledVariant → InstalledVariant} {w : InstalledVariant}
    (h : lookupVarE E key = some w) (hen : (f w).enabled = true) :
    EnabledAtE (setVariant E key f) key.id key.variantName (f w) := by
  obtain ⟨mi, h1, h2⟩ := lookupVarE_eq_some_iff.mp h
  refine ⟨{ mi with installedVariants := amap mi.installedVariants key.variantName f },
    ?_, ?_, hen⟩
  · rw [setVariant, alookup_amap, if_pos rfl, h1]
    rfl
  · dsimp
    rw [alookup_amap, if_pos rfl, h2]
    rfl

theorem collidingSlots_eq_nil_iff {idx : List (ModFileAssetAssociation × ModId)}
    {fi : VariantFileInfo} :
    collidingSlots idx fi = [] ↔ ∀ k ∈ keysOfInfo fi, alookup idx k = none := by
  rw [collidingSlots, List.filterMap_eq_nil_iff]
  constructor
  · intro h k hk
    rw [keysOfInfo, List.mem_map] at hk
    obtain ⟨p, hp, rfl⟩ := hk
    exact Option.map_eq_none'.mp (h p hp)
  · intro h p hp
    refine Option.map_eq_none'.mpr (h p.1 ?_)
    rw [keysOfInfo]
    exact List.mem_map_of_mem _ hp

theorem mem_collidingSlots_iff {idx : List (ModFileAssetAssociation × ModId)}
    {fi : VariantFileInfo} {k : ModFileAssetAssociation} {m : ModId} :
    (k, m) ∈ collidingSlots idx fi ↔ k ∈ keysOfInfo fi ∧ alookup idx k = some m := by
  rw [collidingSlots, List.mem_filterMap]
  constructor
  · rintro ⟨p, hp, hmap⟩
    obtain ⟨m0, hm0, heq⟩ := Option.map_eq_some'.mp hmap
    rw [Prod.mk.injEq] at heq
    obtain ⟨h1, h2⟩ := heq
    subst h1
    subst h2
    constructor
    · rw [keysOfInfo]
      exact List.mem_map_of_mem _ hp
    · exact hm0
  · rintro ⟨hk, hm⟩
    rw [keysOfInfo, List.mem_map] at hk
    obtain ⟨p, hp, rfl⟩ := hk
    refine ⟨p, hp, ?_⟩
    rw [hm]
    rfl

theorem groupConflicts_mods {cs : List (ModFileAssetAssociation × ModId)} {m : ModId} :
    (∃ c ∈ groupConflicts cs, c.modId = m) ↔ m ∈ cs.map Prod.snd := by
  rw [groupConflicts]
  constructor
  · rintro ⟨c, hc, hm⟩
    rw [List.mem_map] at hc
    obtain ⟨m0, hm0, rfl⟩ := hc
    rw [← hm]
    exact List.mem_dedup.mp hm0
  · intro h
    exact ⟨_, List.mem_map_of_mem _ (List.mem_dedup.mpr h), rfl⟩

theorem groupConflicts_slots {cs : List (ModFileAssetAssociation × ModId)}
    {c : ConflictingModVariant} (hc : c ∈ groupConflicts cs) (k : ModFileAssetAssociation) :
    k ∈ c.slots ↔ (k, c.modId) ∈ cs := by
  rw [groupConflicts, List.mem_map] at hc
  obtain ⟨m0, _, rfl⟩ := hc
  dsimp
  rw [List.mem_map]
  constructor
  · rintro ⟨p, hp, rfl⟩
    obtain ⟨k1, m1⟩ := p
    rw [List.mem_filter] at hp
    have hm1 : m1 = m0 := of_decide_eq_true hp.2
    rw [hm1] at hp
    exact hp.1
  · intro h
    refine ⟨(k, m0), List.mem_filter.mpr ⟨h, by simp⟩, rfl⟩

theorem keys_registrationEntries {fi : VariantFileInfo} :
    (registrationEntries fi).map Prod.fst = keysOfInfo fi := by
  rw [registrationEntries, keysOfInfo, List.map_map]
  rfl

/-! ## Invariant preservation -/

theorem addVariant_entries_assoc {s : Store} {key : VariantAndId}
    {payload : ScrapedBananaModData} {classified : VariantFileInfo} {s1 : Store}
    (h : addVariant s key payload classified = some s1) :
    s1.entries = s.entries ∧ s1.assoc = s.assoc := by
  simp only [addVariant] at h
  cases hl : alookup s.entries key.id with
  | none =>
    rw [hl] at h
    exact Option.noConfusion h
  | some mi =>
    rw [hl] at h
    simp only at h
    split at h
    · exact Option.noConfusion h
    · obtain rfl := Option.some.inj h
      exact ⟨rfl, rfl⟩

theorem enableVariant_cases {s : Store} {key : VariantAndId} {s1 : Store}
    {r : Option UnableToEnableReason}
    (h : enableVariant s key = some (s1, r)) :
    (s1 = s ∧ (r = some .alreadyEnabled ∨ ∃ info, r = some (.conflicts info))) ∨
    (∃ v, lookupVarE s.entries key = some v ∧ v.enabled = false ∧
      collidingSlots s.assoc v.fileInfo = [] ∧
      s1 = { s with
               entries := setVariant s.entries key (fun w => { w with enabled := true }),
               assoc := registrationEntries v.fileInfo ++ s.assoc } ∧
      r = none) := by
  simp only [enableVariant] at h
  cases hl : lookupVarE s.entries key with
  | none =>
    rw [hl] at h
    exact Option.noConfusion h
  | some v =>
    rw [hl] at h
    simp only at h
    by_cases hen : v.enabled = true
    · rw [if_pos hen] at h
      obtain heq := Option.some.inj h
      rw [Prod.mk.injEq] at heq
      exact Or.inl ⟨heq.1.symm, Or.inl heq.2.symm⟩
    · rw [if_neg hen] at h
      have hen2 : v.enabled = false := by
        revert hen
        cases v.enabled <;> simp
      cases hcs : collidingSlots s.assoc v.fileInfo with
      | nil =>
        simp only [addModInfoToGlobalLookup, hcs] at h
        obtain heq := Option.some.inj h
        rw [Prod.mk.injEq] at heq
        exact Or.inr ⟨v, rfl, hen2, hcs, heq.1.symm, heq.2.symm⟩
      | cons c cs =>
        simp only [addModInfoToGlobalLookup, hcs] at h
        obtain heq := Option.some.inj h
        rw [Prod.mk.injEq] at heq
        exact Or.inl ⟨heq.1.symm, Or.inr ⟨_, heq.2.symm⟩⟩

theorem storeInv_enableVariant {s : Store} {key : VariantAndId} {s1 : Store}
    {r : Option UnableToEnableReason} (hinv : StoreInv s)
    (h : enableVariant s key = some (s1, r)) : StoreInv s1 := by
  obtain ⟨hreg, hdis⟩ := hinv
  rcases enableVariant_cases h with ⟨rfl, _⟩ | ⟨v, hl, _, hcs, rfl, _⟩
  · exact ⟨hreg, hdis⟩
  · have hfree : ∀ k ∈ keysOfInfo v.fileInfo, alookup s.assoc k = none :=
      collidingSlots_eq_nil_iff.mp hcs
    constructor
    · intro m vn w hw k hk
      rcases enabledAtE_setVariant_elim hw with ⟨_, _, _, w0, hw0, rfl⟩ | ⟨_, hw2⟩
      · obtain rfl : v = w0 := by
          rw [hl] at hw0
          exact Option.some.inj hw0
        show (alookup (registrationEntries v.fileInfo ++ s.assoc) k).isSome
        rw [alookup_append_isSome]
        refine Or.inl (alookup_isSome_of_mem_keys ?_)
        rw [keys_registrationEntries]
        exact hk
      · show (alookup (registrationEntries v.fileInfo ++ s.assoc) k).isSome
        rw [alookup_append_isSome]
        exact Or.inr (hreg m vn w hw2 k hk)
    · intro m1 vn1 v1 m2 vn2 v2 h1 h2 hne k hk
      rcases enabledAtE_setVariant_elim h1 with ⟨hm1, hvn1, _, w1, hw1, rfl⟩ | ⟨_, h1s⟩ <;>
        rcases enabledAtE_setVariant_elim h2 with ⟨hm2, hvn2, _, w2, hw2, rfl⟩ | ⟨_, h2s⟩
      · exact absurd ⟨hm1.trans hm2.symm, hvn1.trans hvn2.symm⟩ hne
      · obtain rfl : v = w1 := by
          rw [hl] at hw1
          exact Option.some.inj hw1
        intro hk2
        have hs := hreg m2 vn2 v2 h2s k hk2
        rw [hfree k hk] at hs
        simp at hs
      · obtain rfl : v = w2 := by
          rw [hl] at hw2
          exact Option.some.inj hw2
        intro hk2
        have hs := hreg m1 vn1 v1 h1s k hk
        rw [hfree k hk2] at hs
        simp at hs
      · exact hdis m1 vn1 v1 m2 vn2 v2 h1s h2s hne k hk

theorem disableVariant_cases {s : Store} {key : VariantAndId} {s1 : Store}
    (h : disableVariant s key = some s1) :
    ∃ v, lookupVarE s.entries key = some v ∧
      s1 = { s with
               entries := setVariant s.entries key (fun w => { w with enabled := false }) } := by
  simp only [disableVariant] at h
  cases hl : lookupVarE s.entries key with
  | none =>
    rw [hl] at h
    exact Option.noConfusion h
  | some v =>
    rw [hl] at h
    exact ⟨v, rfl, (Option.some.inj h).symm⟩

theorem storeInv_disableVariant {s : Store} {key : VariantAndId} {s1 : Store}
    (hinv : StoreInv s) (h : disableVariant s key = some s1) : StoreInv s1 := by
  obtain ⟨hreg, hdis⟩ := hinv
  obtain ⟨v, _, rfl⟩ := disableVariant_cases h
  constructor
  · intro m vn w hw k hk
    rcases enabledAtE_setVariant_elim hw with ⟨_, _, hen, w0, _, rfl⟩ | ⟨_, hw2⟩
    · exact absurd hen (by simp)
    · exact hreg m vn w hw2 k hk
  · intro m1 vn1 v1 m2 vn2 v2 h1 h2 hne k hk
    rcases enabledAtE_setVariant_elim h1 with ⟨_, _, hen, w0, _, rfl⟩ | ⟨_, h1s⟩
    · exact absurd hen (by simp)
    rcases enabledAtE_setVariant_elim h2 with ⟨_, _, hen, w0, _, rfl⟩ | ⟨_, h2s⟩
    · exact absurd hen (by simp)
    exact hdis m1 vn1 v1 m2 vn2 v2 h1s h2s hne k hk

theorem storeInv_replaceStep {s : Store} {owner : VariantAndId}
    {slot : ModFileAssetAssociation} {ov : InstalledVariant} (hinv : StoreInv s)
    (hl : lookupVarE s.entries owner = some ov) (hen : ov.enabled = true)
    (hslot : slot ∈ keysOfInfo ov.fileInfo) :
    StoreInv (replaceStep s owner slot) := by
  obtain ⟨hreg, hdis⟩ := hinv
  have hovE : EnabledAtE s.entries owner.id owner.variantName ov :=
    enabledAtE_of_lookupVarE hl hen
  constructor
  · intro m vn w hw k hk
    show (alookup (aerase s.assoc slot) k).isSome
    rcases enabledAtE_setVariant_elim hw with ⟨hm, hvn, _, w0, hw0, rfl⟩ | ⟨hne1, hw2⟩
    · obtain rfl : ov = w0 := by
        rw [hl] at hw0
        exact Option.some.inj hw0
      have hk2 : k ∈ keysOfInfo ov.fileInfo ∧ k ≠ slot :=
        mem_keys_aerase.mp
          (show k ∈ (aerase ov.fileInfo.ownedFiles slot).map Prod.fst from hk)
      rw [alookup_aerase, if_neg hk2.2]
      exact hreg owner.id owner.variantName ov hovE k hk2.1
    · have hkslot : k ≠ slot := fun hkeq =>
        (hdis m vn w owner.id owner.variantName ov hw2 hovE hne1 k hk) (hkeq ▸ hslot)
      rw [alookup_aerase, if_neg hkslot]
      exact hreg m vn w hw2 k hk
  · intro m1 vn1 v1 m2 vn2 v2 h1 h2 hne k hk
    rcases enabledAtE_setVariant_elim h1 with ⟨hm1, hvn1, _, w1, hw1, rfl⟩ | ⟨hne1, h1s⟩ <;>
      rcases enabledAtE_setVariant_elim h2 with ⟨hm2, hvn2, _, w2, hw2, rfl⟩ | ⟨hne2, h2s⟩
    · exact absurd ⟨hm1.trans hm2.symm, hvn1.trans hvn2.symm⟩ hne
    · obtain rfl : ov = w1 := by
        rw [hl] at hw1
        exact Option.some.inj hw1
      have hk2 : k ∈ keysOfInfo ov.fileInfo ∧ k ≠ slot :=
        mem_keys_aerase.mp
          (show k ∈ (aerase ov.fileInfo.ownedFiles slot).map Prod.fst from hk)
      have hcoords : ¬(owner.id = m2 ∧ owner.variantName = vn2) :=
        fun hc => hne ⟨hm1.trans hc.1, hvn1.trans hc.2⟩
      exact hdis owner.id owner.variantName ov m2 vn2 v2 hovE h2s hcoords k hk2.1
    · obtain rfl : ov = w2 := by
        rw [hl] at hw2
        exact Option.some.inj hw2
      intro hkm
      have hk2 : k ∈ keysOfInfo ov.fileInfo ∧ k ≠ slot :=
        mem_keys_aerase.mp
          (show k ∈ (aerase ov.fileInfo.ownedFiles slot).map Prod.fst from hkm)
      exact (hdis m1 vn1 v1 owner.id owner.variantName ov h1s hovE hne1 k hk) hk2.1
    · exact hdis m1 vn1 v1 m2 vn2 v2 h1s h2s hne k hk

theorem storeInv_swapStep {s : Store} {owner : VariantAndId}
    {slot t : ModFileAssetAssociation} {ov : InstalledVariant} (hinv : StoreInv s)
    (hl : lookupVarE s.entries owner = some ov) (hen : ov.enabled = true)
    (hslot : slot ∈ keysOfInfo ov.fileInfo) (ht : alookup s.assoc t = none) :
    StoreInv (swapStep s owner slot t ov.fileInfo.modId) := by
  obtain ⟨hreg, hdis⟩ := hinv
  have hovE : EnabledAtE s.entries owner.id owner.variantName ov :=
    enabledAtE_of_lookupVarE hl hen
  constructor
  · intro m vn w hw k hk
    show (alookup ((t, ov.fileInfo.modId) :: aerase s.assoc slot) k).isSome
    by_cases hkt : k = t
    · rw [alookup_cons, if_pos hkt]
      rfl
    · rw [alookup_cons, if_neg hkt]
      rcases enabledAtE_setVariant_elim hw with ⟨hm, hvn, _, w0, hw0, rfl⟩ | ⟨hne1, hw2⟩
      · obtain rfl : ov = w0 := by
          rw [hl] at hw0
          exact Option.some.inj hw0
        have hkk : k ∈ ((t, filesAt ov slot) :: aerase ov.fileInfo.ownedFiles slot).map Prod.fst := hk
        rw [List.map_cons, List.mem_cons] at hkk
        rcases hkk with hkk | hkk
        · exact absurd hkk hkt
        · have hk3 := mem_keys_aerase.mp hkk
          rw [alookup_aerase, if_neg hk3.2]
          exact hreg owner.id owner.variantName ov hovE k hk3.1
      · have hkslot : k ≠ slot := fun hkeq =>
          (hdis m vn w owner.id owner.variantName ov hw2 hovE hne1 k hk) (hkeq ▸ hslot)
        rw [alookup_aerase, if_neg hkslot]
        exact hreg m vn w hw2 k hk
  · intro m1 vn1 v1 m2 vn2 v2 h1 h2 hne k hk
    rcases enabledAtE_setVariant_elim h1 with ⟨hm1, hvn1, _, w1, hw1, rfl⟩ | ⟨hne1, h1s⟩ <;>
      rcases enabledAtE_setVariant_elim h2 with ⟨hm2, hvn2, _, w2, hw2, rfl⟩ | ⟨hne2, h2s⟩
    · exact absurd ⟨hm1.trans hm2.symm, hvn1.trans hvn2.symm⟩ hne
    · obtain rfl : ov = w1 := by
        rw [hl] at hw1
        exact Option.some.inj hw1
      intro hk2
      have hcoords : ¬(owner.id = m2 ∧ owner.variantName = vn2) :=
        fun hc => hne ⟨hm1.trans hc.1, hvn1.trans hc.2⟩
      have hkk : k ∈ ((t, filesAt ov slot) :: aerase ov.fileInfo.ownedFiles slot).map Prod.fst := hk
      rw [List.map_cons, List.mem_cons] at hkk
      rcases hkk with rfl | hkk
      · have hs := hreg m2 vn2 v2 h2s k hk2
        rw [ht] at hs
        simp at hs
      · have hk3 := mem_keys_aerase.mp hkk
        exact (hdis owner.id owner.variantName ov m2 vn2 v2 hovE h2s hcoords k hk3.1) hk2
    · obtain rfl : ov = w2 := by
        rw [hl] at hw2
        exact Option.some.inj hw2
      intro hk2
      have hkk : k ∈ ((t, filesAt ov slot) :: aerase ov.fileInfo.ownedFiles slot).map Prod.fst := hk2
      rw [List.map_cons, List.mem_cons] at hkk
      rcases hkk with rfl | hkk
      · have hs := hreg m1 vn1 v1 h1s k hk
        rw [ht] at hs
        simp at hs
      · have hk3 := mem_keys_aerase.mp hkk
        exact (hdis m1 vn1 v1 owner.id owner.variantName ov h1s hovE hne1 k hk) hk3.1
    · exact hdis m1 vn1 v1 m2 vn2 v2 h1s h2s hne k hk

theorem storeInv_applyDecision (s : Store) (d : ResolutionDecision) (hinv : StoreInv s) :
    StoreInv (applyDecision s d) := by
  unfold applyDecision
  split
  · exact hinv
  · exact hinv
  · split
    · rename_i ov hl hch hg
      exact storeInv_replaceStep hinv hl hg.1 hg.2
    · exact hinv
  · split
    · rename_i ov t hl hch hg
      exact storeInv_swapStep hinv hl hg.1.1 hg.1.2 hg.2
    · exact hinv

theorem storeInv_foldlDecisions (ds : List ResolutionDecision) (s : Store)
    (hinv : StoreInv s) : StoreInv (ds.foldl applyDecision s) := by
  induction ds generalizing s with
  | nil => exact hinv
  | cons d rest ih => exact ih _ (storeInv_applyDecision s d hinv)

theorem storeInv_resolverCommit (s : Store) (newKey : VariantAndId)
    (ds : List ResolutionDecision) (hinv : StoreInv s) :
    StoreInv (resolverCommit s newKey ds) := by
  have h1 := storeInv_foldlDecisions ds s hinv
  unfold resolverCommit
  split
  · rename_i s2 r heq
    exact storeInv_enableVariant h1 heq
  · exact h1

theorem storeInv_applyOp {op : StoreOp} {s s1 : Store} (hinv : StoreInv s)
    (h : applyOp op s = some s1) : StoreInv s1 := by
  cases op with
  | add key payload classified =>
    simp only [applyOp] at h
    obtain ⟨he, ha⟩ := addVariant_entries_assoc h
    obtain ⟨hreg, hdis⟩ := hinv
    constructor
    · intro m vn v hv k hk
      rw [he] at hv
      rw [ha]
      exact hreg m vn v hv k hk
    · rw [he]
      exact hdis
  | enable key =>
    simp only [applyOp, Option.map_eq_some'] at h
    obtain ⟨⟨s2, r⟩, he, rfl⟩ := h
    exact storeInv_enableVariant hinv he
  | disable key =>
    simp only [applyOp] at h
    exact storeInv_disableVariant hinv h
  | resolveCommit newKey ds =>
    simp only [applyOp] at h
    obtain rfl := Option.some.inj h
    exact storeInv_resolverCommit s newKey ds hinv

theorem storeInv_runOps {ops : List StoreOp} {s s1 : Store} (hinv : StoreInv s)
    (h : runOps ops s = some s1) : StoreInv s1 := by
  induction ops generalizing s with
  | nil =>
    simp only [runOps] at h
    obtain rfl := Option.some.inj h
    exact hinv
  | cons op rest ih =>
    simp only [runOps] at h
    rw [Option.bind_eq_some] at h
    obtain ⟨s2, h2, h3⟩ := h
    exact ih (storeInv_applyOp hinv h2) h3


theorem storeInv_of_allDisabled {s : Store} (h : AllDisabledE s.entries) : StoreInv s := by
  constructor
  · intro m vn v hv k hk
    obtain ⟨mi, h1, h2, h3⟩ := hv
    rw [h m mi h1 vn v h2] at h3
    exact Bool.noConfusion h3
  · intro m1 vn1 v1 m2 vn2 v2 h1 h2 hne k hk
    obtain ⟨mi, ha, hb, hc⟩ := h1
    rw [h m1 mi ha vn1 v1 hb] at hc
    exact Bool.noConfusion hc

theorem allDisabledE_demoStore5 : AllDisabledE demoStore5.entries := by
  intro m mi h vn v hv
  rw [show demoStore5.entries = [(5, demoMod5)] from rfl, alookup_cons] at h
  by_cases hm : m = 5
  · rw [if_pos hm] at h
    obtain rfl := Option.some.inj h
    rw [show demoMod5.installedVariants = [("v", demoVariantDisabled)] from rfl,
      alookup_cons] at hv
    by_cases hvn : vn = "v"
    · rw [if_pos hvn] at hv
      obtain rfl := Option.some.inj hv
      rfl
    · rw [if_neg hvn] at hv
      exact Option.noConfusion hv
  · rw [if_neg hm] at h
    exact Option.noConfusion h

theorem addModInfoToGlobalLookup_of_nil {idx : List (ModFileAssetAssociation × ModId)}
    {fi : VariantFileInfo} (h : collidingSlots idx fi = []) :
    addModInfoToGlobalLookup idx fi = (none, registrationEntries fi ++ idx) := by
  simp [addModInfoToGlobalLookup, h]

theorem addModInfoToGlobalLookup_of_cons {idx : List (ModFileAssetAssociation × ModId)}
    {fi : VariantFileInfo} {c : ModFileAssetAssociation × ModId}
    {cs : List (ModFileAssetAssociation × ModId)} (h : collidingSlots idx fi = c :: cs) :
    addModInfoToGlobalLookup idx fi =
      (some { conflicts := groupConflicts (c :: cs) }, idx) := by
  simp [addModInfoToGlobalLookup, h]

theorem enableVariant_already {s : Store} {key : VariantAndId} {v : InstalledVariant}
    (hv : lookupVarE s.entries key = some v) (hen : v.enabled = true) :
    enableVariant s key = some (s, some .alreadyEnabled) := by
  simp [enableVariant, hv, hen]

theorem enableVariant_conflict {s : Store} {key : VariantAndId} {v : InstalledVariant}
    {info : VariantConflictInfo} {idx : List (ModFileAssetAssociation × ModId)}
    (hv : lookupVarE s.entries key = some v) (hen : v.enabled = false)
    (hadd : addModInfoToGlobalLookup s.assoc v.fileInfo = (some info, idx)) :
    enableVariant s key = some (s, some (.conflicts info)) := by
  simp [enableVariant, hv, hen, hadd]

theorem enableVariant_success {s : Store} {key : VariantAndId} {v : InstalledVariant}
    {idx : List (ModFileAssetAssociation × ModId)}
    (hv : lookupVarE s.entries key = some v) (hen : v.enabled = false)
    (hadd : addModInfoToGlobalLookup s.assoc v.fileInfo = (none, idx)) :
    enableVariant s key =
      some ({ s with
                entries := setVariant s.entries key (fun w => { w with enabled := true }),
                assoc := idx }, none) := by
  simp [enableVariant, hv, hen, hadd]

theorem collidingSlots_mods {idx : List (ModFileAssetAssociation × ModId)}
    {fi : VariantFileInfo} {m : ModId} :
    m ∈ (collidingSlots idx fi).map Prod.snd ↔
      ∃ k ∈ keysOfInfo fi, alookup idx k = some m := by
  rw [List.mem_map]
  constructor
  · rintro ⟨⟨k1, m1⟩, hp, hm⟩
    dsimp at hm
    subst hm
    have h2 := mem_collidingSlots_iff.mp hp
    exact ⟨k1, h2.1, h2.2⟩
  · rintro ⟨k, hk, hm⟩
    exact ⟨(k, m), mem_collidingSlots_iff.mpr ⟨hk, hm⟩, rfl⟩

theorem downloadSelectedVariant_ok {md5 : List Nat → String} {fetch : String → List Nat}
    {page : ModPageResp} {idx : Nat} {d : ScrapedBananaModData}
    (h : downloadSelectedVariant md5 fetch page idx = some (.ok d)) :
    ∃ sel, page.aFiles.get? idx = some sel ∧
      d.variantDownloadArtifact = fetch sel.sDownloadUrl ∧
      md5 d.variantDownloadArtifact = sel.sMd5Checksum ∧
      d.version = (if page.sVersion = "" then some page.sVersion else none) ∧
      d.modName = page.sName ∧ d.variantName = sel.sFile := by
  unfold downloadSelectedVariant at h
  split at h
  · exact Option.noConfusion h
  · rename_i sel hg
    split at h
    · obtain heq := Option.some.inj h
      exact Except.noConfusion heq
    · rename_i hc
      obtain heq := Option.some.inj h
      obtain rfl := Except.ok.inj heq
      exact ⟨sel, hg, rfl, not_not.mp hc, rfl, rfl, rfl⟩

theorem cleanup_eq (s : Store) :
    cleanupAnyIncompleteInProgAction s =
      match s.journal with
      | none => some s
      | some a => handleIncompleteInProgAction s a := rfl

theorem handleIncomplete_journal_none {s s1 : Store} {a : DbAction}
    (h : handleIncompleteInProgAction s a = some s1) : s1.journal = none := by
  unfold handleIncompleteInProgAction at h
  cases a with
  | add key =>
    rw [Option.bind_eq_some] at h
    obtain ⟨p, _, hr⟩ := h
    unfold removeInProgAction at hr
    cases hpj : p.1.journal with
    | none =>
      rw [hpj] at hr
      exact Option.noConfusion hr
    | some b =>
      rw [hpj] at hr
      obtain rfl := Option.some.inj hr
      rfl
  | remove key =>
    rw [Option.bind_eq_some] at h
    obtain ⟨p, _, hr⟩ := h
    unfold removeInProgAction at hr
    cases hpj : p.1.journal with
    | none =>
      rw [hpj] at hr
      exact Option.noConfusion hr
    | some b =>
      rw [hpj] at hr
      obtain rfl := Option.some.inj hr
      rfl

/-- Where recovery does run to completion, replaying it a second time is a
no-op: a successful cleanup always clears the journal, and a cleanup on a
journal-free store returns it unchanged. -/
theorem cleanup_fixpoint {s s1 : Store}
    (h : cleanupAnyIncompleteInProgAction s = some s1) :
    cleanupAnyIncompleteInProgAction s1 = some s1 := by
  rw [cleanup_eq] at h
  rw [cleanup_eq]
  cases hj : s.journal with
  | none =>
    rw [hj] at h
    have h2 : some s = some s1 := h
    obtain rfl := Option.some.inj h2
    rw [hj]
  | some a =>
    rw [hj] at h
    have h2 : handleIncompleteInProgAction s a = some s1 := h
    rw [handleIncomplete_journal_none h2]

/-! ## Claim theorems -/

/-- C1 (code evidence): the round-trip claim fails on `load_from_path`.  A
store directory serialized with one mod whose only variant is enabled and
collides with nothing is loaded with that variant forced to `enabled =
false` (the load loop sets `var_info.enabled = false` unconditionally, not
just on collision), even though its file association was registered into
the rebuilt Conflict Index — so the enabled set before exit (the variant
enabled) is not reconstructed, and the index holds associations of
variants that are all disabled. -/
theorem load_round_trip_fails :
    demoVariantEnabled.enabled = true ∧
    lookupVarE (loadFromDisk [demoDiskMod42] none
        [{ id := 42, variantName := "red_costume.zip" }]).entries
        { id := 42, variantName := "red_costume.zip" } =
      some { demoVariantEnabled with enabled := false } ∧
    alookup (loadFromDisk [demoDiskMod42] none
        [{ id := 42, variantName := "red_costume.zip" }]).assoc
        (ModFileAssetAssociation.charSkinSlot "mario" 2) = some 42 :=
  ⟨rfl, rfl, rfl⟩

/-- C2 (code evidence): `add_variant` on a key whose mod id has no record
panics in `get_mod_name_expected` (the first call, `get_path_to_mod`, looks
the mod name up in the entity map, which cannot contain a not-yet-added
mod), so adding the first variant of a new mod never succeeds; and even
when the mod record exists, the updated `InstalledModInfo` is a local value
that is dropped — the store's entity map is left unchanged. -/
theorem add_variant_panics_on_fresh_mod :
    addVariant emptyStore { id := 7, variantName := "red.zip" } demoPayload demoFileInfo7 =
      none ∧
    (addVariant demoStore5 { id := 5, variantName := "w" } demoPayload
        demoFileInfo5).map Store.entries = some demoStore5.entries :=
  ⟨rfl, rfl⟩

/-- C3: after any sequence of add / enable / disable / resolver-commit
operations run from a store satisfying the store invariant (any store with
no enabled variants, in particular a freshly loaded one, satisfies it), the
file-association maps of distinct enabled variants share no association
key, and the Conflict Index maps each association to at most one mod id. -/
theorem conflict_exclusivity_after_ops (ops : List StoreOp) (s0 s1 : Store)
    (hinv : StoreInv s0) (h : runOps ops s0 = some s1) :
    DisjointEnabledE s1.entries ∧
      (∀ k m1 m2, alookup s1.assoc k = some m1 → alookup s1.assoc k = some m2 → m1 = m2) := by
  refine ⟨(storeInv_runOps hinv h).2, ?_⟩
  intro k m1 m2 ha hb
  rw [ha] at hb
  exact Option.some.inj hb

/-- Witness for C3: a concrete run (enabling the installed variant of mod 5
on a conflict-free store) reaches a store whose enabled variants are
pairwise disjoint. -/
theorem conflict_exclusivity_after_ops_witness :
    StoreInv demoStore5 ∧ runOps c3WitnessOps demoStore5 = some c3WitnessResult ∧
      DisjointEnabledE c3WitnessResult.entries := by
  have hinv : StoreInv demoStore5 := storeInv_of_allDisabled allDisabledE_demoStore5
  have hrun : runOps c3WitnessOps demoStore5 = some c3WitnessResult := rfl
  exact ⟨hinv, hrun,
    (conflict_exclusivity_after_ops c3WitnessOps demoStore5 c3WitnessResult hinv hrun).1⟩

/-- C4: journaling asserts no record is present — with a record in place it
panics before anything is written (so the existing record is never
overwritten), and it succeeds, serializing the action to the fixed journal
path, exactly when no record is present. -/
theorem journal_at_most_one_in_flight (s : Store) (a : DbAction) :
    (s.journal ≠ none → journalActionAsInProg s a = none) ∧
    (∀ s1, journalActionAsInProg s a = some s1 →
      s.journal = none ∧ s1 = { s with journal := some a }) := by
  constructor
  · intro h
    unfold journalActionAsInProg
    cases hj : s.journal with
    | none => exact absurd hj h
    | some b => rfl
  · intro s1 h
    unfold journalActionAsInProg at h
    cases hj : s.journal with
    | none =>
      rw [hj] at h
      have h2 : some { s with journal := some a } = some s1 := h
      exact ⟨rfl, (Option.some.inj h2).symm⟩
    | some b =>
      rw [hj] at h
      exact Option.noConfusion h

/-- Witness for C4: journaling onto a store that already holds a record
fails; journaling onto a journal-free store writes the record. -/
theorem journal_at_most_one_in_flight_witness :
    journalActionAsInProg demoJournaledAddStore
        (.remove { id := 2, variantName := "y" }) = none ∧
    journalActionAsInProg emptyStore (.add { id := 1, variantName := "x" }) =
      some { emptyStore with journal := some (.add { id := 1, variantName := "x" }) } :=
  ⟨(journal_at_most_one_in_flight demoJournaledAddStore
      (.remove { id := 2, variantName := "y" })).1 (by decide), rfl⟩

/-- C5 (code evidence): recovery is not total over the partially-mutated
states the claim quantifies over.  On the state an interrupted first-time
add leaves — journaled `Add(41/"w")`, variant directory on disk, but no
record for mod 41 in the entity map — `handle_incomplete_in_prog_action`
runs `remove_variant`, whose `get_mod_mut_expected` panics instead of
removing the directory and clearing the journal (contradicting
`remove_variant`'s own doc comment that it must "keep going if we discover
that some state is not there").  When the mod record does exist (an
interrupted second-variant add), recovery does converge: directory and
journal removed. -/
theorem recovery_panics_when_mod_record_absent :
    getInProgActionIfAny demoJournaledAddStore =
      some (.add { id := 41, variantName := "w" }) ∧
    handleIncompleteInProgAction demoJournaledAddStore
      (.add { id := 41, variantName := "w" }) = none ∧
    cleanupAnyIncompleteInProgAction demoJournaledAddStore = none ∧
    cleanupAnyIncompleteInProgAction demoJournaledStore8 =
      some { entries := [(8, demoMod8)], assoc := [], journal := none,
             diskVariantDirs := [], diskModInfos := [(8, demoMod8)],
             diskArtifacts := [] } :=
  ⟨rfl, rfl, rfl, rfl⟩

/-- C6 (code evidence): on a store holding a journaled `Add(9/"z")` whose
mod record is absent (the state an interrupted first-time add leaves),
recovery replay panics before mutating anything, so no replay — first or
second — ever reaches the claimed post-state "variant absent and journal
absent": the journal record survives every replay. -/
theorem recovery_replay_never_completes_on_missing_record :
    demoJournaledAddStore9.journal = some (.add { id := 9, variantName := "z" }) ∧
    cleanupAnyIncompleteInProgAction demoJournaledAddStore9 = none :=
  ⟨rfl, rfl⟩

/-- C7: for every installed variant, `enable_variant` returns
`AlreadyEnabled` as data when the variant is already on; when disabled and
its registration collides it returns the full conflict info — one entry per
colliding mod, each listing exactly the slots that mod collides on — with
the store (enabled flag, Conflict Index, everything else) returned
unchanged; and exactly when registration is collision-free it flips
`enabled` to true and registers the associations. -/
theorem enable_variant_spec (s : Store) (key : VariantAndId) (v : InstalledVariant)
    (hv : lookupVarE s.entries key = some v) :
    (v.enabled = true → enableVariant s key = some (s, some .alreadyEnabled)) ∧
    (v.enabled = false → ∀ c cs, collidingSlots s.assoc v.fileInfo = c :: cs →
      enableVariant s key =
        some (s, some (.conflicts { conflicts := groupConflicts (c :: cs) })) ∧
      (∀ m, (∃ cv ∈ groupConflicts (c :: cs), cv.modId = m) ↔
        ∃ k ∈ keysOfInfo v.fileInfo, alookup s.assoc k = some m) ∧
      (∀ cv ∈ groupConflicts (c :: cs), ∀ k,
        k ∈ cv.slots ↔ k ∈ keysOfInfo v.fileInfo ∧ alookup s.assoc k = some cv.modId)) ∧
    (v.enabled = false → collidingSlots s.assoc v.fileInfo = [] →
      enableVariant s key =
        some ({ s with
                  entries := setVariant s.entries key (fun w => { w with enabled := true }),
                  assoc := registrationEntries v.fileInfo ++ s.assoc }, none)) := by
  refine ⟨?_, ?_, ?_⟩
  · intro hen
    exact enableVariant_already hv hen
  · intro hen c cs hcs
    refine ⟨enableVariant_conflict hv hen (addModInfoToGlobalLookup_of_cons hcs), ?_, ?_⟩
    · intro m
      rw [groupConflicts_mods, ← hcs]
      exact collidingSlots_mods
    · intro cv hcv k
      rw [groupConflicts_slots hcv k, ← hcs]
      exact mem_collidingSlots_iff
  · intro hen hcs
    exact enableVariant_success hv hen (addModInfoToGlobalLookup_of_nil hcs)

/-- Witness for C7: enabling the disabled, collision-free variant of mod 5
flips its flag and registers its association. -/
theorem enable_variant_spec_witness :
    enableVariant demoStore5 { id := 5, variantName := "v" } =
      some ({ demoStore5 with
                entries := setVariant demoStore5.entries { id := 5, variantName := "v" }
                  (fun w => { w with enabled := true }),
                assoc := registrationEntries demoVariantDisabled.fileInfo ++
                  demoStore5.assoc }, none) :=
  (enable_variant_spec demoStore5 { id := 5, variantName := "v" } demoVariantDisabled
    rfl).2.2 rfl rfl

/-- C8: the archive format is determined solely by the magic number the
binary header yields — a missing signature is the no-magic-number hard
error, an unrecognized signature is the not-a-recognizable-archive hard
error, and whenever the signature is recognized the result is that format
for every file name whatsoever, so a disagreeing file-name extension
changes nothing about the result (it only drives the warning flag). -/
theorem detect_format_by_magic_number_only (inferGet : List Nat → Option String)
    (name : String) (bytes : List Nat) :
    (inferGet bytes = none →
      determineArchiveFormat inferGet name bytes =
        (.error (.noMagicNumberInArchive name), false)) ∧
    (∀ ext e, inferGet bytes = some ext → CompressionType.fromStr ext = .error e →
      determineArchiveFormat inferGet name bytes =
        (.error (.variantPayloadNotARecognizableArchive name e), false)) ∧
    (∀ ext t, inferGet bytes = some ext → CompressionType.fromStr ext = .ok t →
      ∀ otherName, (determineArchiveFormat inferGet otherName bytes).1 = .ok t) := by
  refine ⟨?_, ?_, ?_⟩
  · intro h
    simp [determineArchiveFormat, h]
  · intro ext e h1 h2
    simp [determineArchiveFormat, h1, h2]
  · intro ext t h1 h2 otherName
    simp [determineArchiveFormat, h1, h2]

/-- Witness for C8: a payload with a zip signature but a `.rar` file name is
detected as zip — the mismatched extension only sets the warning flag. -/
theorem detect_format_by_magic_number_only_witness :
    (determineArchiveFormat demoInfer "mod.rar" [80, 75, 3, 4]).1 = .ok .zip ∧
    (determineArchiveFormat demoInfer "mod.rar" [80, 75, 3, 4]).2 = true :=
  ⟨(detect_format_by_magic_number_only demoInfer "x" [80, 75, 3, 4]).2.2 "zip" .zip
      (by decide) (by decide) "mod.rar",
    by decide⟩

/-- C9: `download_mod_variant` returns the raw artifact bytes only when
their computed MD5 digest equals the checksum the source provides for the
selected file, and whenever the digests differ the selected download fails
with the checksum-mismatch error, so no payload reaches the caller. -/
theorem download_requires_checksum_match (md5 : List Nat → String)
    (fetch : String → List Nat) (fuzzy : List String → String → FuzzySearchMatchRes)
    (select : List Nat → Nat) (page : ModPageResp) (key : VariantAndId) :
    (∀ d, downloadModVariant md5 fetch fuzzy select page key = some (.ok d) →
      ∃ sel, sel ∈ page.aFiles ∧
        d.variantDownloadArtifact = fetch sel.sDownloadUrl ∧
        md5 d.variantDownloadArtifact = sel.sMd5Checksum) ∧
    (∀ idx sel, page.aFiles.get? idx = some sel →
      md5 (fetch sel.sDownloadUrl) ≠ sel.sMd5Checksum →
      downloadSelectedVariant md5 fetch page idx =
        some (.error (.variantMd5CheckSumMismatch sel.sFile page.sName sel.sMd5Checksum
          (md5 (fetch sel.sDownloadUrl))))) := by
  constructor
  · intro d h
    unfold downloadModVariant at h
    cases hf : fuzzy (page.aFiles.map (fun f => f.sFile)) key.variantName with
    | perfect idx =>
      rw [hf] at h
      obtain ⟨sel, hg, h1, h2, _, _, _⟩ := downloadSelectedVariant_ok h
      exact ⟨sel, List.get?_mem hg, h1, h2⟩
    | multiple ms =>
      rw [hf] at h
      obtain ⟨sel, hg, h1, h2, _, _, _⟩ := downloadSelectedVariant_ok h
      exact ⟨sel, List.get?_mem hg, h1, h2⟩
    | noneRes =>
      rw [hf] at h
      have h2 : some (Except.error (BananaScraperError.modVariantDoesNotFound
          key.variantName page.sName)) =
          some (Except.ok (ε := BananaScraperError) d) := h
      obtain heq := Option.some.inj h2
      exact Except.noConfusion heq
  · intro idx sel hg hne
    simp only [downloadSelectedVariant, hg]
    rw [if_pos hne]

/-- Witness for C9: a tampered entry (recorded checksum differs from the
digest of the fetched bytes) makes the selected download fail with the
checksum-mismatch error. -/
theorem download_requires_checksum_match_witness :
    downloadSelectedVariant demoMd5 demoFetch demoBadPage 0 =
      some (.error (.variantMd5CheckSumMismatch "f.zip" "Mod" "evil"
        (demoMd5 (demoFetch "url")))) :=
  (download_requires_checksum_match demoMd5 demoFetch demoFuzzy demoSelect demoBadPage
    demoKey).2 0 demoBadEntry rfl (by decide)

/-- C10: the `version` field of a successful download is `Some` exactly
when the page's `_sVersion` string is empty — in which case it holds that
empty string — and `None` whenever the page carries a non-empty version
(the code computes `s_version.is_empty().then_some(s_version)`). -/
theorem download_version_some_iff_empty (md5 : List Nat → String)
    (fetch : String → List Nat) (fuzzy : List String → String → FuzzySearchMatchRes)
    (select : List Nat → Nat) (page : ModPageResp) (key : VariantAndId)
    (d : ScrapedBananaModData)
    (h : downloadModVariant md5 fetch fuzzy select page key = some (.ok d)) :
    (page.sVersion = "" → d.version = some "") ∧
    (page.sVersion ≠ "" → d.version = none) := by
  unfold downloadModVariant at h
  cases hf : fuzzy (page.aFiles.map (fun f => f.sFile)) key.variantName with
  | perfect idx =>
    rw [hf] at h
    obtain ⟨sel, _, _, _, hv, _, _⟩ := downloadSelectedVariant_ok h
    constructor
    · intro he
      rw [hv, if_pos he, he]
    · intro hne
      rw [hv, if_neg hne]
  | multiple ms =>
    rw [hf] at h
    obtain ⟨sel, _, _, _, hv, _, _⟩ := downloadSelectedVariant_ok h
    constructor
    · intro he
      rw [hv, if_pos he, he]
    · intro hne
      rw [hv, if_neg hne]
  | noneRes =>
    rw [hf] at h
    have h2 : some (Except.error (BananaScraperError.modVariantDoesNotFound
        key.variantName page.sName)) =
        some (Except.ok (ε := BananaScraperError) d) := h
    obtain heq := Option.some.inj h2
    exact Except.noConfusion heq

/-- Witness for C10: on a page whose version string is empty, the returned
payload carries `version = some ""`. -/
theorem download_version_some_iff_empty_witness : demoOkData.version = some "" :=
  (download_version_some_iff_empty demoMd5 demoFetch demoFuzzy demoSelect demoPage demoKey
    demoOkData rfl).1 rfl
